import Mathlib

/-!
Shallow embedding of the core load-generation and measurement engine of the
opensearch-loadtest repository, together with theorems settling the frozen
specification claims.  Numeric code that Python runs on floats is embedded
over the exact rationals; machine dictionaries are embedded as association
lists; every definition is translated from the corresponding source function.
-/

/-- Maximum of a list of rationals, mirroring Python's built-in max on a
non-empty list (the 0 default for the empty list is never used by callers
that mirror source code guarded by non-emptiness checks). -/
def list_max : List ℚ → ℚ
  | [] => 0
  | [x] => x
  | x :: y :: rest => max x (list_max (y :: rest))

/-- Minimum of a list of rationals, mirroring Python's built-in min. -/
def list_min : List ℚ → ℚ
  | [] => 0
  | [x] => x
  | x :: y :: rest => min x (list_min (y :: rest))

/-- One completed-request record, from RequestMetric in src/loadtest/metrics.py. -/
structure RequestMetric where
  timestamp : ℚ
  duration : ℚ
  success : Bool
  query_name : String
  error : Option String
deriving Repr, DecidableEq

/-- MetricsCollector.record: appends one RequestMetric to the store
(src/loadtest/metrics.py, lines 20-28).  The wall-clock timestamp read
inside the lock is passed explicitly. -/
def record_metric (ms : List RequestMetric) (now duration : ℚ) (success : Bool)
    (query_name : String) (error : Option String) : List RequestMetric :=
  ms ++ [⟨now, duration, success, query_name, error⟩]

/-- Index used for the p90 percentile: int(0.9 * len(durations)) from
src/loadtest/metrics.py line 67, over exact rationals (Python int()
truncates toward zero; the operand is non-negative, so it is the floor). -/
def p90_index (n : ℕ) : ℕ := (⌊(0.9 : ℚ) * n⌋).toNat

/-- The "overall" entry of MetricsCollector.get_summary for a non-empty
store (src/loadtest/metrics.py, lines 36-51), as an association list of
field names to rational values. -/
def overall_fields (ms : List RequestMetric) : List (String × ℚ) :=
  let total : ℚ := ms.length
  let success : ℚ := (ms.filter (·.success)).length
  let errors : ℚ := total - success
  let avg_duration : ℚ := (ms.map (·.duration)).sum / total
  let time_span : ℚ := list_max (ms.map (·.timestamp)) - list_min (ms.map (·.timestamp))
  [("total", total), ("success", success), ("errors", errors),
   ("success_rate", success / total * 100), ("avg_duration", avg_duration),
   ("rps", if time_span > 0 then total / time_span else 0)]

/-- MetricsCollector._calculate_throughput_windows (src/loadtest/metrics.py,
lines 92-111): request counts over fixed 5-second windows between the first
and last record timestamp.  The while loop advances current_time by 5 from
start_time while current_time < end_time, so it runs exactly
ceil((end_time - start_time) / 5) times; window k covers
[start + 5k, start + 5k + 5). -/
def calculate_throughput_windows (metrics : List RequestMetric) : List ℚ :=
  if metrics.isEmpty then []
  else
    let start_time := list_min (metrics.map (·.timestamp))
    let end_time := list_max (metrics.map (·.timestamp))
    let window_count := (⌈(end_time - start_time) / 5⌉).toNat
    (List.range window_count).map (fun k =>
      let window_start := start_time + 5 * k
      let window_requests := metrics.filter (fun m =>
        decide (window_start ≤ m.timestamp ∧ m.timestamp < window_start + 5))
      if window_requests.isEmpty then 0 else (window_requests.length : ℚ) / 5)

/-- The per-query entry of MetricsCollector.get_summary
(src/loadtest/metrics.py, lines 58-88), computed from the records grouped
under one query name.  Python's sorted() is embedded as insertion sort
(same function on lists of rationals). -/
def query_fields (metrics : List RequestMetric) : List (String × ℚ) :=
  let q_total : ℚ := metrics.length
  let q_success : ℚ := (metrics.filter (·.success)).length
  let q_errors : ℚ := q_total - q_success
  let durations : List ℚ := metrics.map (·.duration)
  let q_avg_duration : ℚ := durations.sum / q_total
  let q_min_duration : ℚ := list_min durations
  let q_max_duration : ℚ := list_max durations
  let q_p90_duration : ℚ :=
    if durations.isEmpty then 0
    else (durations.insertionSort (· ≤ ·)).getD (p90_index durations.length) 0
  let q_time_span : ℚ :=
    list_max (metrics.map (·.timestamp)) - list_min (metrics.map (·.timestamp))
  let throughput_windows := calculate_throughput_windows metrics
  [("total", q_total), ("success", q_success), ("errors", q_errors),
   ("success_rate", q_success / q_total * 100), ("avg_duration", q_avg_duration),
   ("min_duration", q_min_duration), ("max_duration", q_max_duration),
   ("p90_duration", q_p90_duration),
   ("rps", if q_time_span > 0 then q_total / q_time_span else 0),
   ("avg_throughput",
     if throughput_windows.isEmpty then 0
     else throughput_windows.sum / throughput_windows.length),
   ("min_throughput", if throughput_windows.isEmpty then 0 else list_min throughput_windows),
   ("max_throughput", if throughput_windows.isEmpty then 0 else list_max throughput_windows)]

/-- First-occurrence list of query names, mirroring the insertion order of
the defaultdict grouping in get_summary (src/loadtest/metrics.py, 54-56). -/
def query_names (ms : List RequestMetric) : List String :=
  (ms.map (·.query_name)).eraseDups

/-- MetricsCollector.get_summary (src/loadtest/metrics.py, lines 30-90):
an empty store yields only the degenerate overall entry; otherwise the
overall entry plus one entry per query name. -/
def get_summary (ms : List RequestMetric) : List (String × List (String × ℚ)) :=
  if ms.isEmpty then
    [("overall", [("total", 0), ("success", 0), ("errors", 0), ("avg_duration", 0)])]
  else
    ("overall", overall_fields ms) ::
      (query_names ms).map (fun n => (n, query_fields (ms.filter (·.query_name == n))))

/-- Python int() truncation toward zero applied to an exact rational. -/
def int_trunc (q : ℚ) : ℤ := if 0 ≤ q then ⌊q⌋ else ⌈q⌉

/-- One step of a concurrency ramp (src/loadtest/config.py, ConcurrencyRamp). -/
structure ConcurrencyRamp where
  concurrency : ℤ
  duration_seconds : ℤ
deriving Repr, DecidableEq

/-- One step of a QPS ramp (src/loadtest/config.py, QPSRamp). -/
structure QPSRamp where
  qps : ℚ
  duration_seconds : ℤ
deriving Repr, DecidableEq

/-- RampBuilder.linear_concurrency_ramp (src/utils/ramp_builder.py, lines 5-18):
steps <= 1 falls back to a single step at the end value; otherwise step i has
value int(start + i * (end - start) / (steps - 1)).  The step values here are
computed over exact rationals; the source computes step_size and the per-step
sums in IEEE doubles, which linear_concurrency_ramp_float below makes
explicit. -/
def linear_concurrency_ramp (start endv steps step_duration : ℤ) : List ConcurrencyRamp :=
  if steps ≤ 1 then [⟨endv, step_duration⟩]
  else
    let step_size : ℚ := ((endv : ℚ) - start) / ((steps : ℚ) - 1)
    (List.range steps.toNat).map (fun (i : ℕ) =>
      ⟨int_trunc ((start : ℚ) + (i : ℚ) * step_size), step_duration⟩)

/-- RampBuilder.linear_qps_ramp (src/utils/ramp_builder.py, lines 20-33). -/
def linear_qps_ramp (start endv : ℚ) (steps step_duration : ℤ) : List QPSRamp :=
  if steps ≤ 1 then [⟨endv, step_duration⟩]
  else
    let step_size : ℚ := (endv - start) / ((steps : ℚ) - 1)
    (List.range steps.toNat).map (fun (i : ℕ) => ⟨start + (i : ℚ) * step_size, step_duration⟩)

/-- Round a rational to the nearest integer with ties to even, the rounding
used for IEEE-754 binary64 significands. -/
def round_half_even (q : ℚ) : ℤ :=
  if 1 / 2 ≤ q - (⌊q⌋ : ℚ) then
    if q - (⌊q⌋ : ℚ) ≤ 1 / 2 then (if ⌊q⌋ % 2 = 0 then ⌊q⌋ else ⌊q⌋ + 1) else ⌊q⌋ + 1
  else ⌊q⌋

/-- Greatest exponent e in [-70, 70] with 2^e <= a, found by descending
search from 70 (fuel 141); -70 when no exponent in the window qualifies. -/
def fl_exp_search (a : ℚ) : ℕ → ℤ
  | 0 => -70
  | k + 1 => if (2 : ℚ) ^ ((k : ℤ) - 70) ≤ a then (k : ℤ) - 70 else fl_exp_search a k

/-- Round-to-nearest, ties-to-even of an exact rational to an IEEE binary64
value (53-bit significand), on the exponent window (2^-70, 2^70) that covers
every value arising in the embedded ramp arithmetic; 0 and values outside
the window pass through unchanged.  This models one Python float operation
applied to exactly-represented operands. -/
def fl (q : ℚ) : ℚ :=
  if q = 0 then 0
  else if (2 : ℚ) ^ (70 : ℤ) ≤ |q| then q
  else if |q| ≤ (2 : ℚ) ^ (-70 : ℤ) then q
  else
    (if 0 ≤ q then 1 else -1)
      * (round_half_even (|q| * (2 : ℚ) ^ ((52 : ℤ) - fl_exp_search |q| 141)) : ℚ)
      * (2 : ℚ) ^ (fl_exp_search |q| 141 - 52)

/-- RampBuilder.linear_concurrency_ramp with the source's IEEE-double
arithmetic made explicit (src/utils/ramp_builder.py, lines 5-18): step_size
is the correctly-rounded double quotient, and step i truncates
fl(start + fl(i * step_size)) — each Python float operation rounds its
exact result to binary64. -/
def linear_concurrency_ramp_float (start endv steps step_duration : ℤ) : List ConcurrencyRamp :=
  if steps ≤ 1 then [⟨endv, step_duration⟩]
  else
    let step_size : ℚ := fl (((endv : ℚ) - start) / ((steps : ℚ) - 1))
    (List.range steps.toNat).map (fun (i : ℕ) =>
      ⟨int_trunc (fl ((start : ℚ) + fl ((i : ℚ) * step_size))), step_duration⟩)

/-- RampBuilder.power_of_2_concurrency_ramp (src/utils/ramp_builder.py,
lines 50-64): steps <= 1 falls back to a single step at concurrency 1;
otherwise 2^i for i < 7 and 100 + (i - 7) * 50 afterwards. -/
def power_of_2_concurrency_ramp (steps step_duration : ℤ) : List ConcurrencyRamp :=
  if steps ≤ 1 then [⟨1, step_duration⟩]
  else
    (List.range steps.toNat).map (fun (i : ℕ) =>
      ⟨if i < 7 then (2 : ℤ) ^ i else 100 + ((i : ℤ) - 7) * 50, step_duration⟩)

/-- The cumulative walk inside LoadTester._get_concurrency_at_time
(src/loadtest/load_tester.py, lines 564-568): return the first step whose
cumulative end time is at or after the requested time, none if the time is
past the whole schedule. -/
def concurrency_at_time_walk (t : ℚ) (cumulative_time : ℚ) :
    List ConcurrencyRamp → Option ℤ
  | [] => none
  | r :: rest =>
    if t ≤ cumulative_time + (r.duration_seconds : ℚ) then some r.concurrency
    else concurrency_at_time_walk t (cumulative_time + (r.duration_seconds : ℚ)) rest

/-- LoadTester._get_concurrency_at_time for a ramp-list schedule
(src/loadtest/load_tester.py, lines 553-570): empty schedules yield 0,
times past the schedule yield the last step's value. -/
def get_concurrency_at_time (ramps : List ConcurrencyRamp) (t : ℚ) : ℤ :=
  if h : ramps = [] then 0
  else (concurrency_at_time_walk t 0 ramps).getD (ramps.getLast h).concurrency

/-- One iteration of LoadTester._qps_worker's main loop
(src/loadtest/load_tester.py, lines 227-243), returning whether an execution
was fired and the new next_request_time.  The tester state holds the cluster
monitor's pause flag (ClusterMonitor.should_pause), but the loop body never
reads it — the source comment says "Execute query regardless of CPU (no
pausing)" — so the flag is an unused argument here.  now_after_sleep is the
wall clock read at line 240, after sleeping until next_request_time (so it
satisfies next_request_time <= now_after_sleep whenever the sleep ran). -/
def qps_worker_iteration (stop_set should_pause : Bool) (current_qps : ℚ)
    (total_workers : ℕ) (next_request_time now_after_sleep : ℚ) : Bool × ℚ :=
  if stop_set then (false, next_request_time)
  else if current_qps ≤ 0 then (false, next_request_time)
  else
    let worker_qps := current_qps / (total_workers : ℚ)
    let interval := if worker_qps > 0 then 1 / worker_qps else 100
    (true, now_after_sleep + interval)

/-- One iteration of LoadTester._concurrency_worker's loop
(src/loadtest/load_tester.py, lines 245-257): execute when the current
target concurrency is positive, idle otherwise.  As in the QPS worker, the
pause flag is part of the tester state but never consulted. -/
def concurrency_worker_iteration (stop_set should_pause : Bool)
    (target_concurrency : ℤ) : Bool :=
  if stop_set then false
  else if target_concurrency > 0 then true
  else false

/-- LoadTester._execute_query_async (src/loadtest/load_tester.py, lines
259-285) restricted to its effect on the metrics store.  The stop event is
sampled twice: on entry (line 261) and in the error branch (line 278); the
event is set once at shutdown and never cleared during a run. -/
def execute_query_async (stop_at_entry : Bool) (success : Bool)
    (stop_at_error_check : Bool) (now duration_ms : ℚ) (name err : String)
    (ms : List RequestMetric) : List RequestMetric :=
  if stop_at_entry then ms
  else if success then record_metric ms now duration_ms true name none
  else if stop_at_error_check then ms
  else record_metric ms now duration_ms false name (some err)

/-- The degenerate summary returned by LoadTester.run_test when the
connectivity check before the run fails (src/loadtest/load_tester.py,
line 125). -/
def connectivity_failure_summary : List (String × ℚ) :=
  [("total", 0), ("success", 0), ("errors", 1), ("success_rate", 0),
   ("avg_duration", 0), ("rps", 0)]

/-- One pass of ClusterMonitor._monitor_loop's threshold logic
(src/utils/cluster_monitor.py, lines 61-82), acting on the pause flag:
data_cpus are the sampled data-node CPU percentages; pause when some node is
above cpu_threshold and not yet paused; resume when the maximum falls to
cpu_threshold - 10 or below while paused; otherwise keep the flag. -/
def cluster_monitor_step (is_paused : Bool) (data_cpus : List ℚ)
    (cpu_threshold : ℚ) : Bool :=
  let high_cpu_nodes := data_cpus.filter (fun c => decide (cpu_threshold < c))
  let max_cpu : ℚ := if data_cpus.isEmpty then 0 else list_max data_cpus
  if !high_cpu_nodes.isEmpty && !is_paused then true
  else if decide (max_cpu ≤ cpu_threshold - 10) && is_paused then false
  else is_paused

/-- One pass of CPUMonitor._monitor_loop's threshold logic
(src/utils/cpu_monitor.py, lines 40-51): pause when the sampled CPU
percentage exceeds threshold, resume when it falls to threshold - 5 or
below (the 5% hysteresis), otherwise keep the flag. -/
def cpu_monitor_step (is_paused : Bool) (cpu_percent threshold : ℚ) : Bool :=
  if decide (threshold < cpu_percent) && !is_paused then true
  else if decide (cpu_percent ≤ threshold - 5) && is_paused then false
  else is_paused

/-- Count stored under a key of a Python dict of ints (defaultdict(int):
missing keys read as 0). -/
def lookup_count (l : List (String × ℕ)) (k : String) : ℕ :=
  (l.lookup k).getD 0

/-- Dict assignment: replace the binding of the key, or append it. -/
def set_count : List (String × ℕ) → String → ℕ → List (String × ℕ)
  | [], k, v => [(k, v)]
  | (k0, v0) :: rest, k, v =>
    if k0 = k then (k, v) :: rest else (k0, v0) :: set_count rest k v

/-- State of ObservabilityMonitor (src/utils/observability.py, lines 7-15):
per-query and per-group in-flight counters, the historical global maximum,
and the per-query maxima. -/
structure ObsState where
  concurrent_requests : List (String × ℕ)
  group_concurrent_requests : List (String × ℕ)
  max_concurrency : ℕ
  per_query_max_concurrency : List (String × ℕ)
deriving Repr, DecidableEq

/-- The fresh monitor: all counters empty, maximum 0. -/
def init_obs_state : ObsState := ⟨[], [], 0, []⟩

/-- Sum of the per-query in-flight counters, as read by the monitor loop:
sum(self.concurrent_requests.values()). -/
def total_concurrent (s : ObsState) : ℕ :=
  (s.concurrent_requests.map Prod.snd).sum

/-- ObservabilityMonitor.start_request (src/utils/observability.py, lines
32-45): increment the query counter (and group counter when a group is
given), then fold the new total into the global maximum and the new query
count into the per-query maximum. -/
def start_request (s : ObsState) (query_name : String)
    (query_group : Option String) : ObsState :=
  let c := set_count s.concurrent_requests query_name
    (lookup_count s.concurrent_requests query_name + 1)
  let g := match query_group with
    | some grp => set_count s.group_concurrent_requests grp
        (lookup_count s.group_concurrent_requests grp + 1)
    | none => s.group_concurrent_requests
  let total_concurrent := (c.map Prod.snd).sum
  let current_query_concurrency := lookup_count c query_name
  ⟨c, g, max s.max_concurrency total_concurrent,
    set_count s.per_query_max_concurrency query_name
      (max (lookup_count s.per_query_max_concurrency query_name)
        current_query_concurrency)⟩

/-- ObservabilityMonitor.end_request (src/utils/observability.py, lines
47-51): decrement the query counter (and group counter when given), floored
at zero; the maxima are untouched.  Natural-number subtraction is exactly
the max(0, n - 1) of the source. -/
def end_request (s : ObsState) (query_name : String)
    (query_group : Option String) : ObsState :=
  let c := set_count s.concurrent_requests query_name
    (lookup_count s.concurrent_requests query_name - 1)
  let g := match query_group with
    | some grp => set_count s.group_concurrent_requests grp
        (lookup_count s.group_concurrent_requests grp - 1)
    | none => s.group_concurrent_requests
  ⟨c, g, s.max_concurrency, s.per_query_max_concurrency⟩

/-- ObservabilityMonitor.get_max_concurrency (src/utils/observability.py,
lines 76-82): folds the current total into the maximum before returning it. -/
def get_max_concurrency (s : ObsState) : ℕ :=
  max s.max_concurrency (total_concurrent s)

/-- A call against the monitor: a begin (start_request) or an end
(end_request) on a query name with an optional group. -/
inductive ObsCall where
  | begin_req (query_name : String) (query_group : Option String)
  | end_req (query_name : String) (query_group : Option String)
deriving Repr, DecidableEq

/-- Apply one call to the monitor state. -/
def apply_call (s : ObsState) : ObsCall → ObsState
  | .begin_req q g => start_request s q g
  | .end_req q g => end_request s q g

/-- Run a sequence of calls against the monitor state, oldest first. -/
def run_calls (s : ObsState) : List ObsCall → ObsState
  | [] => s
  | c :: rest => run_calls (apply_call s c) rest

/-- C2 counterexample: the claim says summarizing an empty store yields an
overall entry whose success_rate is 0.0, but get_summary of the empty store
returns an overall entry with no success_rate field at all. -/
theorem c2_empty_summary_counterexample :
    ¬ (((get_summary []).lookup "overall").getD []).lookup "success_rate" = some 0 := by
  decide

/-- C2 amended: summarizing an empty metrics store is not an error and the
overall entry has total, success, errors and avg_duration all 0, but it
carries no success_rate (and no rps) field. -/
theorem c2_empty_summary_amended :
    (((get_summary []).lookup "overall").getD []).lookup "total" = some 0 ∧
    (((get_summary []).lookup "overall").getD []).lookup "success" = some 0 ∧
    (((get_summary []).lookup "overall").getD []).lookup "errors" = some 0 ∧
    (((get_summary []).lookup "overall").getD []).lookup "avg_duration" = some 0 ∧
    (((get_summary []).lookup "overall").getD []).lookup "success_rate" = none ∧
    (((get_summary []).lookup "overall").getD []).lookup "rps" = none := by
  decide

/-- C6 counterexample: the claim says the degenerate summary returned after
a failed connectivity check has all counts zero, but its errors count is 1. -/
theorem c6_connectivity_failure_counterexample :
    ¬ connectivity_failure_summary.lookup "errors" = some 0 := by
  decide

/-- C6 amended: when the connectivity check before the run fails, run_test
still returns a summary, with total 0 and success 0 but errors 1 (the
failed connection is counted as one error), and success_rate 0. -/
theorem c6_connectivity_failure_amended :
    connectivity_failure_summary.lookup "total" = some 0 ∧
    connectivity_failure_summary.lookup "success" = some 0 ∧
    connectivity_failure_summary.lookup "errors" = some 1 ∧
    connectivity_failure_summary.lookup "success_rate" = some 0 := by
  decide

/-- C5: for steps = 0 (and negative steps) the ramp builders do not reject
the input; each returns a one-step schedule, contradicting the repository's
own test (tests/test_ramp_builder.py, test_zero_steps_raises_error expects
a ValueError) and the spec's edge-case rule. -/
theorem c5_ramp_steps_zero_behavior :
    linear_concurrency_ramp 1 5 0 60 = [⟨5, 60⟩] ∧
    linear_qps_ramp 10 100 0 60 = [⟨100, 60⟩] ∧
    power_of_2_concurrency_ramp 0 60 = [⟨1, 60⟩] ∧
    linear_concurrency_ramp 1 5 (-3) 60 = [⟨5, 60⟩] := by
  decide

/-- C4: a query execution attempt that occurs while the stop flag is set is
discarded without touching the metrics store.  The stop event is set once
at shutdown and never cleared during a run, so an attempt occurring while
the flag is set sees it set at its entry check (load_tester.py line 261)
and returns before executing or recording anything. -/
theorem c4_no_record_when_stopped (stop_at_entry success stop_at_error_check : Bool)
    (now duration_ms : ℚ) (name err : String) (ms : List RequestMetric)
    (h : stop_at_entry = true) :
    execute_query_async stop_at_entry success stop_at_error_check now duration_ms
      name err ms = ms := by
  subst h
  rfl

/-- C4 witness: a successful attempt entered with the stop flag set leaves
the (empty) metrics store unchanged. -/
theorem c4_no_record_when_stopped_witness :
    execute_query_async true true false 0 10 "q1" "timeout" [] = [] :=
  c4_no_record_when_stopped true true false 0 10 "q1" "timeout" [] rfl

/-- C1 counterexample: with the pause flag raised (and the stop flag clear),
a rate-worker iteration with positive rate still fires an execution, and a
concurrency-worker iteration with positive target still takes the execute
branch — the workers never consult the pause flag. -/
theorem c1_pause_flag_counterexample :
    (qps_worker_iteration false true 1 1 0 5).fst = true ∧
    concurrency_worker_iteration false true 2 = true := by
  decide

/-- C1 amended: the worker loops ignore the health monitor's pause flag
entirely (the cluster monitor is wired for logging only): a rate-worker
iteration fires exactly when the stop flag is clear and the current rate is
positive, and a concurrency-worker executes exactly when the stop flag is
clear and the current target concurrency is positive, for either value of
the pause flag. -/
theorem c1_workers_ignore_pause_flag (stop_set should_pause : Bool)
    (current_qps : ℚ) (total_workers : ℕ)
    (next_request_time now_after_sleep : ℚ) (target_concurrency : ℤ) :
    (qps_worker_iteration stop_set should_pause current_qps total_workers
        next_request_time now_after_sleep).fst
      = (!stop_set && decide (0 < current_qps)) ∧
    concurrency_worker_iteration stop_set should_pause target_concurrency
      = (!stop_set && decide (0 < target_concurrency)) := by
  constructor
  · cases stop_set
    · by_cases h : current_qps ≤ 0
      · simp [qps_worker_iteration, h, not_lt.mpr h]
      · simp [qps_worker_iteration, h, not_le.mp h]
    · simp [qps_worker_iteration]
  · cases stop_set
    · by_cases h : 0 < target_concurrency
      · simp [concurrency_worker_iteration, h]
      · simp [concurrency_worker_iteration, h]
    · simp [concurrency_worker_iteration]

/-- C3 counterexample: after sleeping until next_request_time = 0 and waking
at wall clock 5, a rate worker at rate 1 with one worker (interval 1) sets
the new next_request_time to 6, not to the previous next_request_time plus
the interval (which would be 1). -/
theorem c3_next_fire_time_counterexample :
    (qps_worker_iteration false false 1 1 0 5).snd = 6 ∧
    ¬ (qps_worker_iteration false false 1 1 0 5).snd = 0 + 1 := by
  norm_num [qps_worker_iteration]

/-- C3 amended: in every firing iteration of a rate worker, the new
next_request_time is the wall clock read after the sleep plus the computed
interval (load_tester.py line 240) — a value derived from the current wall
clock, so scheduling drift is not compensated. -/
theorem c3_next_fire_time_amended (should_pause : Bool) (current_qps : ℚ)
    (total_workers : ℕ) (next_request_time now_after_sleep : ℚ)
    (hq : 0 < current_qps) (hw : 0 < total_workers) :
    (qps_worker_iteration false should_pause current_qps total_workers
        next_request_time now_after_sleep).snd
      = now_after_sleep + 1 / (current_qps / (total_workers : ℚ)) := by
  have hwq : (0 : ℚ) < current_qps / (total_workers : ℚ) :=
    div_pos hq (by exact_mod_cast hw)
  simp [qps_worker_iteration, not_le.mpr hq, hwq]

/-- C3 witness for the amended rule at rate 1, one worker, wake time 5. -/
theorem c3_next_fire_time_witness :
    (qps_worker_iteration false false 1 1 0 5).snd
      = 5 + 1 / ((1 : ℚ) / ((1 : ℕ) : ℚ)) :=
  c3_next_fire_time_amended false 1 1 0 5 (by norm_num) (by norm_num)

/-- Over exact rationals, int(0.9 * n) is the natural-number quotient 9n/10. -/
theorem p90_index_eq (n : ℕ) : p90_index n = 9 * n / 10 := by
  unfold p90_index
  have h : (0.9 : ℚ) * n = ((9 * n : ℕ) : ℚ) / ((10 : ℕ) : ℚ) := by
    push_cast
    ring_nf
  rw [h, Int.floor_toNat, Nat.floor_div_nat, Nat.floor_natCast]

/-- The nearest-rank p90 index is in range for every non-empty sample. -/
theorem p90_index_lt (n : ℕ) (h : n ≠ 0) : 9 * n / 10 < n := by
  rw [Nat.div_lt_iff_lt_mul (by norm_num)]
  omega

/-- C8: for every non-empty per-target record set, the per-target summary's
p90_duration equals the element at index floor(0.9 * n) of the sorted
duration list — nearest-rank, no interpolation. -/
theorem c8_p90_nearest_rank (metrics : List RequestMetric) (h : metrics ≠ []) :
    ∃ hlt : 9 * metrics.length / 10
        < ((metrics.map (·.duration)).insertionSort (· ≤ ·)).length,
      (query_fields metrics).lookup "p90_duration"
        = some (((metrics.map (·.duration)).insertionSort (· ≤ ·)).get
            ⟨9 * metrics.length / 10, hlt⟩) := by
  have hne : metrics.length ≠ 0 := fun hc => h (List.length_eq_zero.mp hc)
  have hlen : ((metrics.map (·.duration)).insertionSort (· ≤ ·)).length
      = metrics.length := by
    rw [List.length_insertionSort, List.length_map]
  have hlt : 9 * metrics.length / 10
      < ((metrics.map (·.duration)).insertionSort (· ≤ ·)).length := by
    rw [hlen]
    exact p90_index_lt metrics.length hne
  refine ⟨hlt, ?_⟩
  have hlook : (query_fields metrics).lookup "p90_duration"
      = some (if (metrics.map (·.duration)).isEmpty then 0
          else ((metrics.map (·.duration)).insertionSort (· ≤ ·)).getD
            (p90_index (metrics.map (·.duration)).length) 0) := rfl
  rw [hlook]
  have hmapne : ((metrics.map (·.duration)).isEmpty) = false := by
    cases metrics with
    | nil => exact absurd rfl h
    | cons a t => rfl
  rw [hmapne]
  simp only [if_false, Bool.false_eq_true]
  rw [List.length_map, p90_index_eq, List.getD_eq_get]

/-- Concrete record set for the C8 witness: three successful requests for
one target with durations 100, 200 and 300. -/
def c8_sample_metrics : List RequestMetric :=
  [⟨0, 100, true, "q", none⟩, ⟨1, 200, true, "q", none⟩, ⟨2, 300, true, "q", none⟩]

/-- C8 witness: for durations [100, 200, 300] the p90 index is
floor(0.9 * 3) = 2 and the reported p90 is 300. -/
theorem c8_p90_nearest_rank_witness :
    c8_sample_metrics ≠ [] ∧
    (∃ hlt : 9 * c8_sample_metrics.length / 10
        < ((c8_sample_metrics.map (·.duration)).insertionSort (· ≤ ·)).length,
      (query_fields c8_sample_metrics).lookup "p90_duration"
        = some (((c8_sample_metrics.map (·.duration)).insertionSort (· ≤ ·)).get
            ⟨9 * c8_sample_metrics.length / 10, hlt⟩)) ∧
    (query_fields c8_sample_metrics).lookup "p90_duration" = some 300 := by
  refine ⟨by decide, c8_p90_nearest_rank c8_sample_metrics (by decide), ?_⟩
  have hl : (query_fields c8_sample_metrics).lookup "p90_duration"
      = some (((c8_sample_metrics.map (·.duration)).insertionSort (· ≤ ·)).getD
          (p90_index 3) 0) := rfl
  rw [hl, p90_index_eq]
  decide

/-- A threshold is below the maximum of a non-empty list exactly when some
element exceeds the threshold. -/
theorem list_max_lt_iff (t x : ℚ) (xs : List ℚ) :
    t < list_max (x :: xs) ↔ ∃ y ∈ x :: xs, t < y := by
  induction xs generalizing x with
  | nil => simp [list_max]
  | cons y rest ih =>
    rw [show list_max (x :: y :: rest) = max x (list_max (y :: rest)) from rfl,
      lt_max_iff, ih y]
    simp only [List.mem_cons]
    constructor
    · rintro (hx | ⟨z, hz, hlt⟩)
      · exact ⟨x, Or.inl rfl, hx⟩
      · exact ⟨z, Or.inr hz, hlt⟩
    · rintro ⟨z, hz | hz, hlt⟩
      · exact Or.inl (hz ▸ hlt)
      · exact Or.inr ⟨z, hz, hlt⟩

/-- C10: both health monitors update the pause flag with hysteresis.  With a
non-negative threshold, one poll step of the cluster monitor becomes paused
exactly when the sampled metric (the maximum data-node CPU) exceeds the
threshold, and once paused becomes resumed exactly when the metric falls to
threshold - 10 or below; the process CPU monitor behaves the same with
margin 5.  In particular a paused monitor never resumes while the metric is
above threshold minus the hysteresis margin. -/
theorem c10_hysteresis (is_paused : Bool) (data_cpus : List ℚ)
    (cpu_threshold cpu_percent threshold : ℚ) (hthr : 0 ≤ cpu_threshold) :
    cluster_monitor_step is_paused data_cpus cpu_threshold
      = (if is_paused
          then !decide ((if data_cpus.isEmpty then 0 else list_max data_cpus)
            ≤ cpu_threshold - 10)
          else decide (cpu_threshold
            < (if data_cpus.isEmpty then 0 else list_max data_cpus))) ∧
    cpu_monitor_step is_paused cpu_percent threshold
      = (if is_paused then !decide (cpu_percent ≤ threshold - 5)
          else decide (threshold < cpu_percent)) := by
  constructor
  · cases data_cpus with
    | nil =>
      cases is_paused with
      | false =>
        simp [cluster_monitor_step, not_lt.mpr hthr,
          not_lt.mpr (by linarith : cpu_threshold - 10 ≤ cpu_threshold)]
      | true =>
        by_cases hr : (0 : ℚ) ≤ cpu_threshold - 10
        · simp [cluster_monitor_step, hr]
        · simp [cluster_monitor_step, hr]
    | cons x xs =>
      cases is_paused with
      | false =>
        by_cases hp : cpu_threshold < list_max (x :: xs)
        · obtain ⟨y, hy, hlt⟩ := (list_max_lt_iff cpu_threshold x xs).mp hp
          have hne : ((x :: xs).filter
              (fun c => decide (cpu_threshold < c))).isEmpty = false := by
            rw [List.isEmpty_eq_false_iff_exists_mem]
            exact ⟨y, List.mem_filter.mpr ⟨hy, by simpa using hlt⟩⟩
          simp [cluster_monitor_step, hne, hp]
        · have hnil : ((x :: xs).filter
              (fun c => decide (cpu_threshold < c))) = [] := by
            rw [List.filter_eq_nil_iff]
            intro a ha
            simp only [decide_eq_true_eq]
            intro hlt
            exact hp ((list_max_lt_iff cpu_threshold x xs).mpr ⟨a, ha, hlt⟩)
          simp [cluster_monitor_step, hnil, hp]
      | true =>
        by_cases hr : list_max (x :: xs) ≤ cpu_threshold - 10
        · simp [cluster_monitor_step, hr]
        · simp [cluster_monitor_step, hr]
  · cases is_paused with
    | false =>
      by_cases hp : threshold < cpu_percent
      · simp [cpu_monitor_step, hp]
      · simp [cpu_monitor_step, hp]
    | true =>
      by_cases hr : cpu_percent ≤ threshold - 5
      · simp [cpu_monitor_step, hr]
      · simp [cpu_monitor_step, hr]

/-- C10 witness: threshold 80 with the flag down and one data node at 90
pauses both monitors (and the characterization evaluates accordingly). -/
theorem c10_hysteresis_witness :
    cluster_monitor_step false [90] 80
      = (if false
          then !decide ((if ([90] : List ℚ).isEmpty then 0 else list_max [90])
            ≤ 80 - 10)
          else decide ((80 : ℚ)
            < (if ([90] : List ℚ).isEmpty then 0 else list_max [90]))) ∧
    cpu_monitor_step false 90 80
      = (if false then !decide ((90 : ℚ) ≤ 80 - 5)
          else decide ((80 : ℚ) < 90)) :=
  c10_hysteresis false [90] 80 90 80 (by norm_num)

/-- Running a concatenated call sequence runs the two parts in order. -/
theorem run_calls_append (s : ObsState) (l1 l2 : List ObsCall) :
    run_calls s (l1 ++ l2) = run_calls (run_calls s l1) l2 := by
  induction l1 generalizing s with
  | nil => rfl
  | cons c rest ih => simpa [run_calls] using ih (apply_call s c)

/-- Effect of one begin call on a state whose only in-flight entry is the
called query. -/
theorem apply_begin (q : String) (g : Option String) (k maxc : ℕ)
    (gc pq : List (String × ℕ)) :
    apply_call ⟨[(q, k)], gc, maxc, pq⟩ (ObsCall.begin_req q g)
      = ⟨[(q, k + 1)],
          (match g with
            | some grp => set_count gc grp (lookup_count gc grp + 1)
            | none => gc),
          max maxc (k + 1),
          set_count pq q (max (lookup_count pq q) (k + 1))⟩ := by
  simp [apply_call, start_request, set_count, lookup_count, List.lookup]

/-- Effect of one begin call on a state with no in-flight entries. -/
theorem apply_begin_nil (q : String) (g : Option String) (maxc : ℕ)
    (gc pq : List (String × ℕ)) :
    apply_call ⟨[], gc, maxc, pq⟩ (ObsCall.begin_req q g)
      = ⟨[(q, 1)],
          (match g with
            | some grp => set_count gc grp (lookup_count gc grp + 1)
            | none => gc),
          max maxc 1,
          set_count pq q (max (lookup_count pq q) 1)⟩ := by
  simp [apply_call, start_request, set_count, lookup_count, List.lookup]

/-- Effect of one end call on a state whose only in-flight entry is the
called query: the counter decrements (clamped at zero) and the maxima are
untouched. -/
theorem apply_end (q : String) (g : Option String) (k maxc : ℕ)
    (gc pq : List (String × ℕ)) :
    apply_call ⟨[(q, k)], gc, maxc, pq⟩ (ObsCall.end_req q g)
      = ⟨[(q, k - 1)],
          (match g with
            | some grp => set_count gc grp (lookup_count gc grp - 1)
            | none => gc),
          maxc, pq⟩ := by
  simp [apply_call, end_request, set_count, lookup_count, List.lookup]

/-- Effect of one end call on a state with no in-flight entries: the
defaultdict reads 0, the clamped decrement stores 0 back. -/
theorem apply_end_nil (q : String) (g : Option String) (maxc : ℕ)
    (gc pq : List (String × ℕ)) :
    apply_call ⟨[], gc, maxc, pq⟩ (ObsCall.end_req q g)
      = ⟨[(q, 0)],
          (match g with
            | some grp => set_count gc grp (lookup_count gc grp - 1)
            | none => gc),
          maxc, pq⟩ := by
  simp [apply_call, end_request, set_count, lookup_count, List.lookup]

/-- N same-query begin calls raise the query counter by N and fold the new
total into the historical maximum. -/
theorem begins_run (q : String) (g : Option String) (N : ℕ) :
    ∀ (k maxc : ℕ) (gc pq : List (String × ℕ)), k ≤ maxc →
      ∃ gc2 pq2,
        run_calls ⟨[(q, k)], gc, maxc, pq⟩ (List.replicate N (ObsCall.begin_req q g))
          = ⟨[(q, k + N)], gc2, max maxc (k + N), pq2⟩ := by
  induction N with
  | zero =>
    intro k maxc gc pq hk
    exact ⟨gc, pq, by simp [run_calls, Nat.max_eq_left hk]⟩
  | succ n ih =>
    intro k maxc gc pq hk
    rw [List.replicate_succ,
      show run_calls ⟨[(q, k)], gc, maxc, pq⟩
          (ObsCall.begin_req q g :: List.replicate n (ObsCall.begin_req q g))
        = run_calls (apply_call ⟨[(q, k)], gc, maxc, pq⟩ (ObsCall.begin_req q g))
            (List.replicate n (ObsCall.begin_req q g)) from rfl,
      apply_begin]
    obtain ⟨gc2, pq2, h⟩ := ih (k + 1) (max maxc (k + 1)) _ _ (le_max_right _ _)
    refine ⟨gc2, pq2, ?_⟩
    rw [h, max_assoc, Nat.max_eq_right (by omega : k + 1 ≤ k + 1 + n),
      show k + 1 + n = k + (n + 1) from by omega]

/-- M same-query end calls lower the query counter by M, clamped at zero,
and leave the historical maxima untouched. -/
theorem ends_run (q : String) (g : Option String) (M : ℕ) :
    ∀ (k maxc : ℕ) (gc pq : List (String × ℕ)),
      ∃ gc2,
        run_calls ⟨[(q, k)], gc, maxc, pq⟩ (List.replicate M (ObsCall.end_req q g))
          = ⟨[(q, k - M)], gc2, maxc, pq⟩ := by
  induction M with
  | zero =>
    intro k maxc gc pq
    exact ⟨gc, by simp [run_calls]⟩
  | succ m ih =>
    intro k maxc gc pq
    rw [List.replicate_succ,
      show run_calls ⟨[(q, k)], gc, maxc, pq⟩
          (ObsCall.end_req q g :: List.replicate m (ObsCall.end_req q g))
        = run_calls (apply_call ⟨[(q, k)], gc, maxc, pq⟩ (ObsCall.end_req q g))
            (List.replicate m (ObsCall.end_req q g)) from rfl,
      apply_end]
    obtain ⟨gc2, h⟩ := ih (k - 1) maxc _ pq
    refine ⟨gc2, ?_⟩
    rw [h, show k - 1 - m = k - (m + 1) from by omega]

/-- C9 counterexample: one begin on target a followed by two ends on target
b leaves the current global count at 1, not at max(0, N - M) = 1 - 2 = 0:
the zero-clamping is per target, not global. -/
theorem c9_tracker_counterexample :
    total_concurrent (run_calls init_obs_state
        [ObsCall.begin_req "a" none, ObsCall.end_req "b" none,
          ObsCall.end_req "b" none]) = 1 ∧
    ¬ total_concurrent (run_calls init_obs_state
        [ObsCall.begin_req "a" none, ObsCall.end_req "b" none,
          ObsCall.end_req "b" none]) = 1 - 2 := by
  decide

/-- C9 amended: the clamp is per target.  For every sequence of N begin
calls followed by M end calls all on one target (and group): the current
global count is max(0, N - M) (truncated subtraction), the historical
maximum equals N, and no end call ever changes the historical maximum.  In
particular after N begins the count and maximum are both N, and after N
matching ends the count is 0 while the maximum stays N. -/
theorem c9_tracker_amended (N M : ℕ) (q : String) (g : Option String) :
    total_concurrent (run_calls init_obs_state
        (List.replicate N (ObsCall.begin_req q g)
          ++ List.replicate M (ObsCall.end_req q g))) = N - M ∧
    get_max_concurrency (run_calls init_obs_state
        (List.replicate N (ObsCall.begin_req q g)
          ++ List.replicate M (ObsCall.end_req q g))) = N ∧
    (∀ (s : ObsState) (q2 : String) (g2 : Option String),
      (end_request s q2 g2).max_concurrency = s.max_concurrency) := by
  rw [run_calls_append]
  have hend : ∀ (s : ObsState) (q2 : String) (g2 : Option String),
      (end_request s q2 g2).max_concurrency = s.max_concurrency := by
    intro s q2 g2
    rfl
  cases N with
  | zero =>
    cases M with
    | zero =>
      refine ⟨rfl, rfl, hend⟩
    | succ m =>
      rw [show run_calls init_obs_state (List.replicate 0 (ObsCall.begin_req q g))
          = init_obs_state from rfl,
        List.replicate_succ,
        show run_calls init_obs_state
            (ObsCall.end_req q g :: List.replicate m (ObsCall.end_req q g))
          = run_calls (apply_call init_obs_state (ObsCall.end_req q g))
              (List.replicate m (ObsCall.end_req q g)) from rfl,
        show init_obs_state = (⟨[], [], 0, []⟩ : ObsState) from rfl,
        apply_end_nil]
      obtain ⟨gc2, h⟩ := ends_run q g m 0 0 _ []
      rw [h]
      refine ⟨?_, ?_, hend⟩
      · simp [total_concurrent]
      · simp [get_max_concurrency, total_concurrent]
  | succ n =>
    rw [List.replicate_succ,
      show run_calls init_obs_state
          (ObsCall.begin_req q g :: List.replicate n (ObsCall.begin_req q g))
        = run_calls (apply_call init_obs_state (ObsCall.begin_req q g))
            (List.replicate n (ObsCall.begin_req q g)) from rfl,
      show init_obs_state = (⟨[], [], 0, []⟩ : ObsState) from rfl,
      apply_begin_nil]
    rw [show max 0 1 = 1 from rfl]
    obtain ⟨gc2, pq2, hb⟩ := begins_run q g n 1 1 _ _ (le_refl 1)
    rw [hb, Nat.max_eq_right (by omega : (1 : ℕ) ≤ 1 + n)]
    obtain ⟨gc3, he⟩ := ends_run q g M (1 + n) (1 + n) gc2 pq2
    rw [he]
    refine ⟨?_, ?_, hend⟩
    · simp [total_concurrent]
      omega
    · simp [get_max_concurrency, total_concurrent]
      omega

/-- Truncation toward zero of an integer is the integer itself. -/
theorem int_trunc_intCast (z : ℤ) : int_trunc (z : ℚ) = z := by
  unfold int_trunc
  split
  · exact Int.floor_intCast z
  · exact Int.ceil_intCast z

/-- Truncation toward zero is monotone. -/
theorem int_trunc_mono {a b : ℚ} (h : a ≤ b) : int_trunc a ≤ int_trunc b := by
  unfold int_trunc
  by_cases ha : 0 ≤ a
  · rw [if_pos ha, if_pos (le_trans ha h)]
    exact Int.floor_le_floor h
  · rw [if_neg ha]
    by_cases hb : 0 ≤ b
    · rw [if_pos hb]
      calc ⌈a⌉ ≤ 0 := Int.ceil_le.mpr (by exact_mod_cast le_of_lt (not_le.mp ha))
        _ ≤ ⌊b⌋ := Int.le_floor.mpr (by exact_mod_cast hb)
    · rw [if_neg hb]
      exact Int.ceil_le_ceil h

/-- The cumulative walk answers with the first step when the requested time
is inside (or at the boundary of) its window. -/
theorem walk_within (t cum : ℚ) (r : ConcurrencyRamp) (rest : List ConcurrencyRamp)
    (h : t ≤ cum + (r.duration_seconds : ℚ)) :
    concurrency_at_time_walk t cum (r :: rest) = some r.concurrency := by
  simp [concurrency_at_time_walk, h]

/-- At the exact cumulative end of a schedule of positive-duration steps,
the walk lands on the last step. -/
theorem walk_total (t : ℚ) :
    ∀ (ramps : List ConcurrencyRamp) (cum : ℚ) (hne : ramps ≠ [])
      (_ : ∀ r ∈ ramps, (0 : ℚ) < (r.duration_seconds : ℚ))
      (_ : t = cum + (ramps.map (fun r => (r.duration_seconds : ℚ))).sum),
      concurrency_at_time_walk t cum ramps = some ((ramps.getLast hne).concurrency)
  | [], _, hne, _, _ => absurd rfl hne
  | [r], cum, _, _, ht => by
    have hb : t ≤ cum + (r.duration_seconds : ℚ) := by
      rw [ht]
      simp
    simp [concurrency_at_time_walk, hb]
  | r :: r2 :: rest, cum, _, hpos, ht => by
    have hS : 0 < ((r2 :: rest).map (fun r3 => (r3.duration_seconds : ℚ))).sum := by
      refine List.sum_pos _ ?_ (by simp)
      intro x hx
      obtain ⟨r3, hr3, hxr⟩ := List.mem_map.mp hx
      exact hxr ▸ hpos r3 (List.mem_cons_of_mem r hr3)
    have hgt : ¬ t ≤ cum + (r.duration_seconds : ℚ) := by
      rw [ht, not_le, List.map_cons, List.sum_cons]
      linarith
    have hrec := walk_total t (r2 :: rest) (cum + (r.duration_seconds : ℚ))
      (by simp) (fun r3 h3 => hpos r3 (List.mem_cons_of_mem r h3))
      (by rw [ht, List.map_cons, List.sum_cons]; ring)
    rw [show concurrency_at_time_walk t cum (r :: r2 :: rest)
        = if t ≤ cum + (r.duration_seconds : ℚ) then some r.concurrency
          else concurrency_at_time_walk t (cum + (r.duration_seconds : ℚ)) (r2 :: rest)
      from rfl, if_neg hgt, hrec]
    exact congrArg (fun (x : ConcurrencyRamp) => some x.concurrency)
      (List.getLast_cons (List.cons_ne_nil r2 rest)).symm

/-- Lookup at elapsed time 0 returns the first step's value whenever the
first step's duration is non-negative. -/
theorem lookup_at_zero (r : ConcurrencyRamp) (rest : List ConcurrencyRamp)
    (hd : 0 ≤ (r.duration_seconds : ℚ)) :
    get_concurrency_at_time (r :: rest) 0 = r.concurrency := by
  rw [get_concurrency_at_time, dif_neg (List.cons_ne_nil r rest),
    walk_within 0 0 r rest (by simpa using hd)]
  rfl

/-- Lookup at the schedule's total duration returns the last step's value
for schedules of positive-duration steps. -/
theorem lookup_at_total (ramps : List ConcurrencyRamp) (hne : ramps ≠ [])
    (hpos : ∀ r ∈ ramps, (0 : ℚ) < (r.duration_seconds : ℚ)) :
    get_concurrency_at_time ramps
        ((ramps.map (fun r => (r.duration_seconds : ℚ))).sum)
      = (ramps.getLast hne).concurrency := by
  rw [get_concurrency_at_time, dif_neg hne,
    walk_total _ ramps 0 hne hpos (by ring)]
  rfl

/-- For steps > 1 the linear concurrency ramp takes its general form. -/
theorem linear_ramp_eq (start endv steps d : ℤ) (hsteps : 1 < steps) :
    linear_concurrency_ramp start endv steps d
      = (List.range steps.toNat).map (fun i =>
          ⟨int_trunc ((start : ℚ) + (i : ℚ)
            * (((endv : ℚ) - start) / ((steps : ℚ) - 1))), d⟩) := by
  unfold linear_concurrency_ramp
  rw [if_neg (not_le.mpr hsteps)]

/-- C7 amended: over exact rational arithmetic — the idealization of the
source's IEEE-double arithmetic — the claim holds for every linear
concurrency schedule built with steps > 1 and positive step duration:
looking the schedule up at elapsed time 0 yields start, looking it up at
the schedule's total duration steps * d yields end, and the per-step values
(with integer truncation applied per step) are non-decreasing when
end >= start and non-increasing when end < start.  Under the source's
float evaluation the total-duration endpoint can fall one below end
(see the counterexample). -/
theorem c7_linear_schedule_lookup (start endv steps d : ℤ)
    (hsteps : 1 < steps) (hd : 0 < d) :
    get_concurrency_at_time (linear_concurrency_ramp start endv steps d) 0 = start ∧
    get_concurrency_at_time (linear_concurrency_ramp start endv steps d)
        ((steps * d : ℤ) : ℚ) = endv ∧
    (start ≤ endv →
      ((linear_concurrency_ramp start endv steps d).map (·.concurrency)).Pairwise (· ≤ ·)) ∧
    (endv < start →
      ((linear_concurrency_ramp start endv steps d).map (·.concurrency)).Pairwise (· ≥ ·)) := by
  have hsQ : (1 : ℚ) < (steps : ℚ) := by exact_mod_cast hsteps
  have hden : (0 : ℚ) < (steps : ℚ) - 1 := by linarith
  have hn1 : 1 ≤ steps.toNat := by omega
  have hcast : ((steps.toNat : ℕ) : ℚ) = (steps : ℚ) := by
    exact_mod_cast Int.toNat_of_nonneg (by omega : (0 : ℤ) ≤ steps)
  rw [linear_ramp_eq start endv steps d hsteps]
  refine ⟨?_, ?_, ?_, ?_⟩
  · obtain ⟨m, hm⟩ : ∃ m, steps.toNat = m + 1 := ⟨steps.toNat - 1, by omega⟩
    rw [hm, List.range_succ_eq_map, List.map_cons,
      lookup_at_zero _ _ (by exact_mod_cast hd.le)]
    simp [int_trunc_intCast]
  · have hsum : (((List.range steps.toNat).map (fun (i : ℕ) =>
          (⟨int_trunc ((start : ℚ) + (i : ℚ)
            * (((endv : ℚ) - start) / ((steps : ℚ) - 1))), d⟩ : ConcurrencyRamp))).map
          (fun r => (r.duration_seconds : ℚ))).sum = ((steps * d : ℤ) : ℚ) := by
      rw [List.map_map,
        show ((fun (r : ConcurrencyRamp) => (r.duration_seconds : ℚ)) ∘ fun (i : ℕ) =>
            (⟨int_trunc ((start : ℚ) + (i : ℚ)
              * (((endv : ℚ) - start) / ((steps : ℚ) - 1))), d⟩ : ConcurrencyRamp))
          = fun _ => (d : ℚ) from rfl,
        List.map_const', List.sum_replicate, List.length_range, nsmul_eq_mul, hcast]
      push_cast
      ring
    have hne : ((List.range steps.toNat).map (fun (i : ℕ) =>
        (⟨int_trunc ((start : ℚ) + (i : ℚ)
          * (((endv : ℚ) - start) / ((steps : ℚ) - 1))), d⟩ : ConcurrencyRamp))) ≠ [] := by
      simp only [ne_eq, List.map_eq_nil_iff, List.range_eq_nil]
      omega
    rw [← hsum, lookup_at_total _ hne (by
      intro r hr
      obtain ⟨i, hi, hir⟩ := List.mem_map.mp hr
      rw [← hir]
      exact_mod_cast hd)]
    have hlast : ((List.range steps.toNat).map (fun (i : ℕ) =>
        (⟨int_trunc ((start : ℚ) + (i : ℚ)
          * (((endv : ℚ) - start) / ((steps : ℚ) - 1))), d⟩ : ConcurrencyRamp))).getLast hne
        = ⟨int_trunc ((start : ℚ) + ((steps.toNat - 1 : ℕ) : ℚ)
            * (((endv : ℚ) - start) / ((steps : ℚ) - 1))), d⟩ := by
      rw [List.getLast_eq_getElem]
      simp
    rw [hlast]
    show int_trunc ((start : ℚ) + ((steps.toNat - 1 : ℕ) : ℚ)
        * (((endv : ℚ) - start) / ((steps : ℚ) - 1))) = endv
    have hidx : (((steps.toNat - 1 : ℕ)) : ℚ) = (steps : ℚ) - 1 := by
      rw [Nat.cast_sub hn1, hcast, Nat.cast_one]
    rw [hidx]
    have hval : (start : ℚ) + ((steps : ℚ) - 1)
        * (((endv : ℚ) - start) / ((steps : ℚ) - 1)) = (endv : ℚ) := by
      field_simp
    rw [hval, int_trunc_intCast]
  · intro hle
    rw [List.map_map]
    refine (List.pairwise_lt_range steps.toNat).map _ ?_
    intro a b hab
    have hss : 0 ≤ ((endv : ℚ) - start) / ((steps : ℚ) - 1) :=
      div_nonneg (by
        rw [sub_nonneg]
        exact_mod_cast hle) hden.le
    exact int_trunc_mono (add_le_add_left
      (mul_le_mul_of_nonneg_right (by exact_mod_cast hab.le) hss) _)
  · intro hlt
    rw [List.map_map]
    refine (List.pairwise_lt_range steps.toNat).map _ ?_
    intro a b hab
    have hss : ((endv : ℚ) - start) / ((steps : ℚ) - 1) ≤ 0 :=
      div_nonpos_iff.mpr (Or.inr ⟨by
        rw [sub_nonpos]
        exact_mod_cast hlt.le, hden.le⟩)
    exact int_trunc_mono (add_le_add_left
      (mul_le_mul_of_nonpos_right (by exact_mod_cast hab.le) hss) _)

/-- C7 witness: the linear ramp from 0 to 10 in 3 steps of 5 seconds starts
at 0 at time 0 and reaches 10 at total duration 15, with monotone steps. -/
theorem c7_linear_schedule_lookup_witness :
    get_concurrency_at_time (linear_concurrency_ramp 0 10 3 5) 0 = 0 ∧
    get_concurrency_at_time (linear_concurrency_ramp 0 10 3 5)
        ((3 * 5 : ℤ) : ℚ) = 10 ∧
    ((0 : ℤ) ≤ 10 →
      ((linear_concurrency_ramp 0 10 3 5).map (·.concurrency)).Pairwise (· ≤ ·)) ∧
    ((10 : ℤ) < 0 →
      ((linear_concurrency_ramp 0 10 3 5).map (·.concurrency)).Pairwise (· ≥ ·)) :=
  c7_linear_schedule_lookup 0 10 3 5 (by norm_num) (by norm_num)

/-- The descending exponent search returns e whenever 2^e ≤ a < 2^(e+1),
e ≥ -70, and the remaining fuel still covers e. -/
theorem fl_exp_search_spec (a : ℚ) (e : ℤ) (h1 : (2 : ℚ) ^ e ≤ a)
    (h2 : a < (2 : ℚ) ^ (e + 1)) (he : -70 ≤ e) :
    ∀ k : ℕ, e ≤ (k : ℤ) - 71 → fl_exp_search a k = e := by
  intro k
  induction k with
  | zero =>
    intro hk
    omega
  | succ k ih =>
    intro hk
    simp only [fl_exp_search]
    by_cases hc : (k : ℤ) - 70 = e
    · rw [if_pos (by rw [hc]; exact h1), hc]
    · have hgt : e < (k : ℤ) - 70 := by push_cast at hk; omega
      rw [if_neg (not_le.mpr
        (lt_of_lt_of_le h2 (zpow_le_zpow_right₀ (by norm_num) (by omega))))]
      exact ih (by omega)

/-- Closed form of binary64 rounding for a positive rational with known
binade: scale to the 53-bit significand, round half-to-even, scale back. -/
theorem fl_spec (q : ℚ) (e : ℤ) (hq : 0 < q) (he1 : -70 < e) (he2 : e ≤ 69)
    (h1 : (2 : ℚ) ^ e ≤ q) (h2 : q < (2 : ℚ) ^ (e + 1)) :
    fl q = (round_half_even (q * (2 : ℚ) ^ ((52 : ℤ) - e)) : ℚ)
      * (2 : ℚ) ^ (e - 52) := by
  have habs : |q| = q := abs_of_pos hq
  have hofl : ¬ (2 : ℚ) ^ (70 : ℤ) ≤ |q| := by
    rw [habs]
    exact not_le.mpr (lt_of_lt_of_le h2 (zpow_le_zpow_right₀ (by norm_num) (by omega)))
  have hufl : ¬ |q| ≤ (2 : ℚ) ^ (-70 : ℤ) := by
    rw [habs]
    exact not_le.mpr (lt_of_lt_of_le (zpow_lt_zpow_right₀ (by norm_num) (by omega)) h1)
  have hsearch : fl_exp_search |q| 141 = e := by
    rw [habs]
    exact fl_exp_search_spec q e h1 h2 (by omega) 141 (by omega)
  rw [fl, if_neg hq.ne', if_neg hofl, if_neg hufl, hsearch, habs, if_pos hq.le, one_mul]

/-- The binary64 value of 1/49: the significand 2^58/49 rounds down to
5882252574524729, one ulp below 2^52 * 64/49 rounded exactly. -/
theorem fl_one_div_49 : fl (1 / 49) = 5882252574524729 / 288230376151711744 := by
  rw [fl_spec (1 / 49) (-6) (by norm_num) (by norm_num) (by norm_num)
    (by norm_num) (by norm_num)]
  norm_num [round_half_even]

/-- The binary64 product 49 * fl(1/49): the exact product 288230376151711721/2^58
rounds to (2^53 - 1)/2^53, which is strictly below 1. -/
theorem fl_mid : fl (288230376151711721 / 288230376151711744)
    = 9007199254740991 / 9007199254740992 := by
  rw [fl_spec _ (-1) (by norm_num) (by norm_num) (by norm_num)
    (by norm_num) (by norm_num)]
  norm_num [round_half_even]

/-- (2^53 - 1)/2^53 is exactly representable, so rounding fixes it. -/
theorem fl_fix : fl (9007199254740991 / 9007199254740992)
    = 9007199254740991 / 9007199254740992 := by
  rw [fl_spec _ (-1) (by norm_num) (by norm_num) (by norm_num)
    (by norm_num) (by norm_num)]
  norm_num [round_half_even]

/-- The last step of the float-evaluated ramp from 0 to 1 in 50 steps:
int(0 + fl(49 * fl(1/49))) = int((2^53 - 1)/2^53) = 0, not 1. -/
theorem float_ramp_last_value :
    int_trunc (fl ((0 : ℚ) + fl (((49 : ℕ) : ℚ) * fl ((1 : ℚ) / 49)))) = 0 := by
  rw [fl_one_div_49]
  norm_num
  rw [fl_mid]
  norm_num
  rw [fl_fix]
  norm_num [int_trunc]

/-- Normal form of the float-evaluated ramp from 0 to 1 in 50 steps of 60s. -/
theorem linear_ramp_float_form : linear_concurrency_ramp_float 0 1 50 60
    = (List.range 50).map (fun (i : ℕ) =>
        ⟨int_trunc (fl ((0 : ℚ) + fl ((i : ℚ) * fl ((1 : ℚ) / 49)))), 60⟩) := by
  unfold linear_concurrency_ramp_float
  rw [if_neg (by norm_num : ¬ (50 : ℤ) ≤ 1)]
  norm_num
  congr 1

/-- C7 counterexample: under the source's IEEE-double arithmetic (each
float operation modelled by the binary64 rounding fl), the linear ramp from
0 to 1 in 50 steps of 60 seconds has last step int(49 * fl(1/49)) =
int(0.9999999999999999) = 0, so looking the schedule up at its total
duration 50 * 60 returns 0, not end = 1 — the claim's endpoint property is
falsified by the program. -/
theorem c7_linear_schedule_lookup_counterexample :
    ¬ get_concurrency_at_time (linear_concurrency_ramp_float 0 1 50 60)
        ((50 * 60 : ℤ) : ℚ) = 1 ∧
    get_concurrency_at_time (linear_concurrency_ramp_float 0 1 50 60)
        ((50 * 60 : ℤ) : ℚ) = 0 := by
  have hne : ((List.range 50).map (fun (i : ℕ) =>
      (⟨int_trunc (fl ((0 : ℚ) + fl ((i : ℚ) * fl ((1 : ℚ) / 49)))), 60⟩ :
        ConcurrencyRamp))) ≠ [] := by simp
  have hpos : ∀ r ∈ (List.range 50).map (fun (i : ℕ) =>
      (⟨int_trunc (fl ((0 : ℚ) + fl ((i : ℚ) * fl ((1 : ℚ) / 49)))), 60⟩ :
        ConcurrencyRamp)), (0 : ℚ) < (r.duration_seconds : ℚ) := by
    intro r hr
    obtain ⟨i, _, hir⟩ := List.mem_map.mp hr
    rw [← hir]
    norm_num
  have hsum : (((List.range 50).map (fun (i : ℕ) =>
      (⟨int_trunc (fl ((0 : ℚ) + fl ((i : ℚ) * fl ((1 : ℚ) / 49)))), 60⟩ :
        ConcurrencyRamp))).map (fun r => (r.duration_seconds : ℚ))).sum
      = ((50 * 60 : ℤ) : ℚ) := by
    rw [List.map_map, show ((fun (r : ConcurrencyRamp) => (r.duration_seconds : ℚ))
        ∘ fun (i : ℕ) =>
        (⟨int_trunc (fl ((0 : ℚ) + fl ((i : ℚ) * fl ((1 : ℚ) / 49)))), 60⟩ :
          ConcurrencyRamp)) = fun _ => (60 : ℚ) from rfl,
      List.map_const', List.sum_replicate, List.length_range]
    norm_num
  have hlast : ((List.range 50).map (fun (i : ℕ) =>
      (⟨int_trunc (fl ((0 : ℚ) + fl ((i : ℚ) * fl ((1 : ℚ) / 49)))), 60⟩ :
        ConcurrencyRamp))).getLast hne
      = ⟨int_trunc (fl ((0 : ℚ) + fl (((49 : ℕ) : ℚ) * fl ((1 : ℚ) / 49)))), 60⟩ := by
    rw [List.getLast_eq_getElem]
    simp
  have hmain : get_concurrency_at_time (linear_concurrency_ramp_float 0 1 50 60)
      ((50 * 60 : ℤ) : ℚ) = 0 := by
    rw [linear_ramp_float_form, ← hsum, lookup_at_total _ hne hpos, hlast]
    exact float_ramp_last_value
  exact ⟨by rw [hmain]; decide, hmain⟩
